import Mathlib

/-!
Shallow embedding of the product-enrichment scripts of this repository:
`api/update-products-barra.js`, the second batch script (`part_000`,
also headed `api/update-products.js`) and the Netlify webhook function
(`part_001`, headed `netlify/functions/product-created.js`).

Conventions of the embedding:
* JS strings are `List Char`; `null`/`undefined` string values are `Option`,
  and where the scripts only test truthiness (`!variant.barcode`,
  `!product.body_html`) the empty list stands for both `""` and a missing
  value, since both are falsy.
* Numbers that the scripts use as nonnegative integers (product ids, variant
  indices, retry counts, HTTP statuses) are `Nat`; `parseInt` results, which
  can be negative or `NaN`, are `Option Int` with `none` for `NaN`.
* `async` control flow is sequentialised; a thrown exception is an
  `Except`/sum constructor; network effects are parameters (`Nat →
  HttpResponse` for successive fetch results, `url → PageResponse` for the
  pagination server, and so on).
* `while`/`do..while` loops are fuel-indexed structural recursions with
  enough fuel that the fuel case is unreachable on the paths the scripts take.
-/

/-- Apostrophe character, kept out of string literals. -/
def apos : Char := Char.ofNat 39

/-- The character for a single decimal digit value (`0 ↦ '0'`, …, `9 ↦ '9'`). -/
def digitChar (d : Nat) : Char := Char.ofNat (48 + d)

/-- Numeric value of a decimal digit character, as JS `parseInt` yields on a
single digit. -/
def digitVal (c : Char) : Nat := c.toNat - 48

/-- Fuel-indexed decimal printer: most-significant digit first.  With fuel
above `n` this is exactly the decimal representation of `n`. -/
def natToDigitsAux : Nat → Nat → List Char
  | 0, _ => []
  | fuel + 1, n =>
    if n < 10 then [digitChar n]
    else natToDigitsAux fuel (n / 10) ++ [digitChar (n % 10)]

/-- JS `String(n)` for a nonnegative integer `n`: its decimal digits,
most-significant first, `"0"` for zero. -/
def jsString (n : Nat) : List Char := natToDigitsAux (n + 1) n

/-- The last `k` decimal digits of `n`, zero-padded on the left to width `k`. -/
def lastDigits : Nat → Nat → List Char
  | 0, _ => []
  | k + 1, n => lastDigits k (n / 10) ++ [digitChar (n % 10)]

/-- JS `s.padStart(w, c)` on character lists. -/
def padStart (w : Nat) (c : Char) (l : List Char) : List Char :=
  List.replicate (w - l.length) c ++ l

/-- JS `s.slice(-w)` on character lists: the last `w` characters, or the whole
list when it is shorter than `w`. -/
def sliceLast (w : Nat) (l : List Char) : List Char :=
  l.drop (l.length - w)

/-- Value of a digit string read in base ten (leading zeros allowed). -/
def digitsToNat (l : List Char) : Nat :=
  l.foldl (fun a c => 10 * a + digitVal c) 0

/-- `baseCode` of `generateUniqueBarcode`
(`api/update-products-barra.js` line 39, `part_001` line 52):
`"200" + String(productId).padStart(6,'0').slice(-6) +
String(index).padStart(3,'0')`. -/
def baseCode (productId index : Nat) : List Char :=
  ('2' :: '0' :: '0' :: []) ++
    sliceLast 6 (padStart 6 '0' (jsString productId)) ++
    padStart 3 '0' (jsString index)

/-- The weighted digit sum of the EAN-13 loop
(`api/update-products-barra.js` lines 42-46): positions `0,…,11`, weight `1`
on even positions and `3` on odd ones. -/
def ean13Sum (l : List Char) : Nat :=
  (List.range 12).foldl
    (fun sum i =>
      sum + (if i % 2 = 0 then digitVal (l.getD i '0')
             else digitVal (l.getD i '0') * 3)) 0

/-- `checkDigit = (10 - (sum % 10)) % 10`
(`api/update-products-barra.js` line 48). -/
def checkDigit (l : List Char) : Nat := (10 - ean13Sum l % 10) % 10

/-- `generateUniqueBarcode` (`api/update-products-barra.js` lines 35-50 and,
identically, `part_001` lines 51-62): the base code with the EAN-13 check
digit appended by string concatenation. -/
def generateUniqueBarcode (productId index : Nat) : List Char :=
  baseCode productId index ++ jsString (checkDigit (baseCode productId index))

/-- JS character-class test used by `trim`/`parseInt` whitespace skipping. -/
def isSpaceChar (c : Char) : Bool :=
  c == ' ' || c == '\t' || c == '\n' || c == '\r'

/-- Leading decimal digits of a string, as a number; `none` when there is no
digit, modelling `NaN`. -/
def jsParseNat (l : List Char) : Option Nat :=
  let ds := l.takeWhile Char.isDigit
  if ds = [] then none else some (digitsToNat ds)

/-- JS `parseInt(s, 10)`: skip leading whitespace, optional sign, then the
longest run of decimal digits; `none` models `NaN`. -/
def jsParseInt (s : List Char) : Option Int :=
  match s.dropWhile isSpaceChar with
  | '-' :: rest => (jsParseNat rest).map (fun n => -(n : Int))
  | '+' :: rest => (jsParseNat rest).map (fun n => (n : Int))
  | t => (jsParseNat t).map (fun n => (n : Int))

/-- An HTTP response as the scripts observe it: status code, `statusText`,
header lookup (JS `res.headers.get`, `none` for an absent header) and body
text (`res.text()`). -/
structure HttpResponse where
  status : Nat
  statusText : List Char
  headers : List Char → Option (List Char)
  bodyText : List Char

/-- `res.ok` per the fetch standard: status in the 200–299 range. -/
def resOk (r : HttpResponse) : Bool :=
  decide (200 ≤ r.status) && decide (r.status ≤ 299)

/-- The header name the retry loops read. -/
def retryAfterKey : List Char := ("Retry-After".toList)

/-- `parseInt(res.headers.get("Retry-After") || "2", 10)`
(`api/update-products-barra.js` line 16, `part_001` line 27): `||` takes the
fallback `"2"` when the header is absent or empty, both falsy. -/
def retryAfterValue (h : Option (List Char)) : Option Int :=
  jsParseInt (match h with
    | none => ("2".toList)
    | some s => if s = [] then ("2".toList) else s)

/-- Milliseconds slept for one 429 response: `retryAfter * 1000`; `none`
models the `NaN` sleep of an unparsable header. -/
def retryWaitMs (h : Option (List Char)) : Option Int :=
  (retryAfterValue h).map (fun n => n * 1000)

/-- Result of the batch `shopifyFetch` (`api/update-products-barra.js`
lines 10-30 and `part_000` lines 10-30): a returned response, a thrown
`Error` from a non-ok status, or the final throw once all `retries`
iterations were consumed by 429s. -/
inductive FetchOutcome where
  | success (r : HttpResponse)
  | httpError (status : Nat) (statusText : List Char)
  | exhausted

/-- The `for` loop of the batch `shopifyFetch`: first argument the attempt
index `i`, second the remaining iterations.  The returned list records, in
order, the milliseconds slept for each 429 encountered. -/
def shopifyFetchAux (resp : Nat → HttpResponse) :
    Nat → Nat → FetchOutcome × List (Option Int)
  | _, 0 => (.exhausted, [])
  | i, r + 1 =>
    let res := resp i
    if res.status = 429 then
      let out := shopifyFetchAux resp (i + 1) r
      (out.1, retryWaitMs (res.headers retryAfterKey) :: out.2)
    else if !(resOk res) then (.httpError res.status res.statusText, [])
    else (.success res, [])

/-- `shopifyFetch(url, options, retries)` of the batch scripts; both call
sites use the default `retries = 5`. -/
def shopifyFetch (resp : Nat → HttpResponse) (retries : Nat) :
    FetchOutcome × List (Option Int) :=
  shopifyFetchAux resp 0 retries

/-- Result of the webhook `shopifyFetch` (`part_001` lines 21-46).  Its loop
body sits inside `try`/`catch`: the non-ok `throw` is caught, logged and
rethrown only when `i === retries - 1`, otherwise the loop sleeps 1000 ms and
continues; and when every attempt hit 429 the loop just ends, so the
function returns `undefined`. -/
inductive WebhookFetchOutcome where
  | success (r : HttpResponse)
  | thrown (status : Nat) (errorText : List Char)
  | undefinedResult

/-- The loop of the webhook `shopifyFetch`, shaped like `shopifyFetchAux`. -/
def webhookShopifyFetchAux (resp : Nat → HttpResponse) :
    Nat → Nat → WebhookFetchOutcome × List (Option Int)
  | _, 0 => (.undefinedResult, [])
  | i, r + 1 =>
    let res := resp i
    if res.status = 429 then
      let out := webhookShopifyFetchAux resp (i + 1) r
      (out.1, retryWaitMs (res.headers retryAfterKey) :: out.2)
    else if !(resOk res) then
      if r = 0 then (.thrown res.status res.bodyText, [])
      else
        let out := webhookShopifyFetchAux resp (i + 1) r
        (out.1, some 1000 :: out.2)
    else (.success res, [])

/-- `shopifyFetch(url, options, retries)` of the webhook function; its call
sites use the default `retries = 3`. -/
def webhookShopifyFetch (resp : Nat → HttpResponse) (retries : Nat) :
    WebhookFetchOutcome × List (Option Int) :=
  webhookShopifyFetchAux resp 0 retries

/-- A concrete response sequence: the first attempt yields a 500 (not ok,
not 429), the second a 200. -/
def cexServerError : Nat → HttpResponse := fun i =>
  if i = 0 then ⟨500, ("Internal Server Error".toList), fun _ => none, ("boom".toList)⟩
  else ⟨200, ("OK".toList), fun _ => none, ("fine".toList)⟩

/-- A product variant as the scripts read it; `[]` models a missing or empty
barcode, both falsy in the `!variant.barcode` tests. -/
structure Variant where
  id : Nat
  barcode : List Char
deriving DecidableEq

/-- A product as the scripts read it; `[]` models missing or empty strings. -/
structure Product where
  id : Nat
  title : List Char
  tags : List Char
  body_html : List Char
  variants : List Variant
deriving DecidableEq

/-- JS `s.includes(pat)`: `pat` occurs contiguously somewhere in `s`. -/
def hasSubstr (pat : List Char) : List Char → Bool
  | [] => pat.isPrefixOf []
  | c :: rest => pat.isPrefixOf (c :: rest) || hasSubstr pat rest

/-- The literal `>; rel="next"` that must follow the captured URL in the
regex `/<([^>]+)>; rel="next"/`. -/
def relNextLit : List Char := (">; rel=\"next\"".toList)

/-- One attempt of the regex `/<([^>]+)>; rel="next"/` at the head of the
string: a `<`, a nonempty capture of non-`>` characters, then the literal
`>; rel="next"`. -/
def matchNextAt : List Char → Option (List Char)
  | [] => none
  | c :: rest =>
    if c = '<' then
      let cap := rest.takeWhile (fun x => !(x == '>'))
      let tail := rest.dropWhile (fun x => !(x == '>'))
      if cap ≠ [] ∧ relNextLit.isPrefixOf tail then some cap else none
    else none

/-- JS `linkHeader.match(/<([^>]+)>; rel="next"/)`: the regex engine scans
left to right and reports the first match's capture. -/
def findRelNext : List Char → Option (List Char)
  | [] => none
  | c :: rest =>
    match matchNextAt (c :: rest) with
    | some cap => some cap
    | none => findRelNext rest

/-- Lines 87-93 of `api/update-products-barra.js` (lines 47-53 of
`part_000`): the next URL is the regex capture when the `link` header is
truthy and contains `rel="next"`, and `null` otherwise — also when the
`includes` test passes but the regex does not match. -/
def parseNextUrl (h : Option (List Char)) : Option (List Char) :=
  match h with
  | none => none
  | some s =>
    if s ≠ [] ∧ hasSubstr (("rel=\"next\"".toList)) s then findRelNext s
    else none

/-- One page of `GET products.json`: the `products` array and the `link`
response header. -/
structure PageResponse where
  products : List Product
  linkHeader : Option (List Char)

/-- `fetchAllProducts` (`api/update-products-barra.js` lines 75-97,
`part_000` lines 35-57): follow `rel="next"` links, concatenating the pages'
`products` arrays.  `server` maps each URL to its page; `fuel` bounds the
`while` loop, `none` modelling a run that does not finish within `fuel`
pages. -/
def fetchAllProducts (server : List Char → PageResponse) :
    Nat → List Char → Option (List Product)
  | 0, _ => none
  | fuel + 1, url =>
    let page := server url
    match parseNextUrl page.linkHeader with
    | some next =>
      (fetchAllProducts server fuel next).map (fun rest => page.products ++ rest)
    | none => some page.products

/-- A finite pagination run from `url`: each page's `link` header leads to
the next page's URL and the last page has no `rel="next"` link; the second
index collects the pages' `products` arrays in order. -/
inductive PageChain (server : List Char → PageResponse) :
    List Char → List (List Product) → Prop
  | last {url : List Char}
      (h : parseNextUrl (server url).linkHeader = none) :
      PageChain server url [(server url).products]
  | step {url next : List Char} {ps : List (List Product)}
      (h : parseNextUrl (server url).linkHeader = some next)
      (hc : PageChain server next ps) :
      PageChain server url ((server url).products :: ps)

/-- Two concrete products used to exercise the pagination model. -/
def cexPageProduct1 : Product := ⟨11, ("A".toList), [], [], []⟩

/-- Second concrete product of the two-page run. -/
def cexPageProduct2 : Product := ⟨22, ("B".toList), [], [], []⟩

/-- A concrete two-page server: page `u0` links to `u1`, which is final. -/
def cexServerPages : List Char → PageResponse := fun url =>
  if url = ("u0".toList) then
    ⟨[cexPageProduct1], some (('<' :: ("u1".toList)) ++ relNextLit)⟩
  else ⟨[cexPageProduct2], none⟩

/-- JS `s.trim()`: strip whitespace from both ends. -/
def jsTrim (l : List Char) : List Char :=
  ((l.dropWhile isSpaceChar).reverse.dropWhile isSpaceChar).reverse

/-- JS `s.toLowerCase()` on the ASCII tag strings the scripts compare. -/
def jsToLower (l : List Char) : List Char := l.map Char.toLower

/-- `product.tags.split(",").map(t => t.trim().toLowerCase())`
(`api/update-products-barra.js` line 140, `part_000` line 76,
`part_001` line 68). -/
def normalizedTags (p : Product) : List (List Char) :=
  (p.tags.splitOn ',').map (fun t => jsToLower (jsTrim t))

/-- The tag allowlist of the batch scripts
(`api/update-products-barra.js` lines 142-152), capitalised duplicates
included. -/
def targetTags : List (List Char) :=
  [("all-jumpers".toList), ("water-slides".toList), ("combos-wet-dry".toList),
   ("combos wet/dry".toList), ("interactives".toList),
   ("obstacle courses".toList), ("Obstacle Courses".toList),
   ("slide combos".toList), ("Slide Combos".toList)]

/-- `tags.find(t => [...].includes(t))`: the first normalised tag in the
allowlist, `undefined` (here `none`) when no entry matches. -/
def tagMatch (p : Product) : Option (List Char) :=
  (normalizedTags p).find? (fun t => targetTags.contains t)

/-- A product metafield; `namespaceName` stands for the JS field
`namespace`, a reserved word in Lean. -/
structure Metafield where
  namespaceName : List Char
  key : List Char
  value : List Char

/-- `metafields.find(m => m.namespace === "custom" && m.key === nsKey)?.value
|| ""` (`api/update-products-barra.js` lines 164-165). -/
def getMeta (metafields : List Metafield) (nsKey : List Char) : List Char :=
  match metafields.find? (fun m =>
      m.namespaceName == ("custom".toList) && m.key == nsKey) with
  | some m => m.value
  | none => []

/-- The string `Tago's Jump Inc.`, built without a literal apostrophe. -/
def tagosJump : List Char := ("Tago".toList) ++ [apos] ++ ("s Jump Inc.".toList)

/-- The description template of the batch scripts
(`api/update-products-barra.js` lines 172-184, `part_000` lines 108-120),
with the three metafield lines conditional on truthy values.  Apostrophes of
the English text are interpolated as `apos`. -/
def batchDescription (tagM title dims incl war : List Char) : List Char :=
  ("\n        <div class=\"product-usp\">\n          Take Your Business to the Next Level with ".toList)
  ++ tagosJump
  ++ ("<br>\n          With any inflatable ".toList)
  ++ tagM
  ++ (" from ".toList) ++ tagosJump
  ++ (", you can rest easy knowing you".toList) ++ [apos]
  ++ ("re getting a top-of-the-line, commercial-grade inflatable that".toList) ++ [apos]
  ++ ("s built to last and maximize your investment.<br><br>\n\n          The ".toList)
  ++ title
  ++ (" is no exception. It".toList) ++ [apos]
  ++ ("s the perfect option for any event where people want to cool off and have some adrenaline-pumping fun. With a spectacular design and vibrant color scheme, the ".toList)
  ++ title
  ++ (" adds a pop of excitement and visual appeal to any party, ensuring your customers come back for more.<br><br>\n\n          The ".toList)
  ++ title
  ++ (" from ".toList) ++ tagosJump
  ++ (" is an ideal choice for any event.<br>\n          ".toList)
  ++ (if dims ≠ [] then ("<strong>Dimensions:</strong> ".toList) ++ dims ++ ("<br>".toList) else [])
  ++ ("\n          ".toList)
  ++ (if incl ≠ [] then ("<strong>Includes:</strong> ".toList) ++ incl ++ ("<br>".toList) else [])
  ++ ("\n          ".toList)
  ++ (if war ≠ [] then ("<strong>Warranty:</strong> ".toList) ++ war else [])
  ++ ("\n        </div>\n      ".toList)

/-- Webhook tag allowlist (`part_001` lines 70-78): seven lowercase
entries, no capitalised duplicates. -/
def webhookTargetTags : List (List Char) :=
  [("all-jumpers".toList), ("water-slides".toList), ("combos-wet-dry".toList),
   ("combos wet/dry".toList), ("interactives".toList),
   ("obstacle courses".toList), ("slide combos".toList)]

/-- The fallback description of `generateProductDescription`
(`part_001` lines 82-87), returned when no tag matches. -/
def webhookDefaultDescription : List Char :=
  ("\n      <div class=\"product-description\">\n        <p>High-quality product from ".toList)
  ++ ("Tago".toList) ++ [apos]
  ++ ("s Jump Inc. Built with commercial-grade materials for durability and performance.</p>\n        <p>Perfect for events, parties, and commercial use. Trust in our commitment to quality and customer satisfaction.</p>\n      </div>\n    ".toList)

/-- The tag-matched description of `generateProductDescription`
(`part_001` lines 90-99). -/
def webhookUspDescription (tagM title : List Char) : List Char :=
  ("\n    <div class=\"product-usp\">\n      Take Your Business to the Next Level with ".toList)
  ++ tagosJump
  ++ ("<br>\n      With any inflatable ".toList)
  ++ tagM
  ++ (" from ".toList) ++ tagosJump
  ++ (", you can rest easy knowing you".toList) ++ [apos]
  ++ ("re getting a top-of-the-line, commercial-grade inflatable that".toList) ++ [apos]
  ++ ("s built to last and maximize your investment.<br><br>\n\n      The ".toList)
  ++ title
  ++ (" is no exception. It".toList) ++ [apos]
  ++ ("s the perfect option for any event where people want to cool off and have some adrenaline-pumping fun. With a spectacular design and vibrant color scheme, the ".toList)
  ++ title
  ++ (" adds a pop of excitement and visual appeal to any party, ensuring your customers come back for more.<br><br>\n\n      The ".toList)
  ++ title
  ++ (" from ".toList) ++ tagosJump
  ++ (" is an ideal choice for any event.<br>\n    </div>\n  ".toList)

/-- `generateProductDescription` (`part_001` lines 67-100). -/
def generateProductDescription (p : Product) : List Char :=
  match (normalizedTags p).find? (fun t => webhookTargetTags.contains t) with
  | none => webhookDefaultDescription
  | some tagM => webhookUspDescription tagM p.title

/-- One `PUT products/{id}.json` payload of the richer batch script
(`api/update-products-barra.js` lines 222-233): `body_html` is always
present, `variants` lists the `(variant id, barcode)` pairs (included in the
JSON only when nonempty). -/
structure UpdateRequest where
  productId : Nat
  body_html : List Char
  variants : List (Nat × List Char)
deriving DecidableEq

/-- The `do`/`while` of `api/update-products-barra.js` lines 199-202:
generate codes at index `base + attempts` until one is not in
`existingBarcodes` or `attempts` reaches 100; returns the last generated
code and the final value of `attempts`.  `fuel` starts at 100, so the
fuel-out case is never reached from `attempts = 0`. -/
def genLoop (existing : List (List Char)) (pid base : Nat) :
    Nat → Nat → List Char × Nat
  | attempts, 0 => (generateUniqueBarcode pid (base + attempts), attempts + 1)
  | attempts, fuel + 1 =>
    if generateUniqueBarcode pid (base + attempts) ∈ existing ∧ attempts + 1 < 100 then
      genLoop existing pid base (attempts + 1) fuel
    else (generateUniqueBarcode pid (base + attempts), attempts + 1)

/-- One variant of the batch loop (`api/update-products-barra.js`
lines 189-220): a variant with a truthy barcode is left alone; otherwise the
`do`/`while` runs with `base = productIndex * 100 + variantIndex`, the
variant is skipped when 100 attempts were reached, and an accepted code is
added to `existingBarcodes` and pushed with the variant id. -/
def processVariantBatch (existing : List (List Char)) (pid base : Nat)
    (v : Variant) : List (List Char) × List (Nat × List Char) :=
  if v.barcode ≠ [] then (existing, [])
  else
    let r := genLoop existing pid base 0 100
    if 100 ≤ r.2 then (existing, [])
    else (r.1 :: existing, [(v.id, r.1)])

/-- The `for` over `product.variants` (line 189), threading
`existingBarcodes` and concatenating the `updatedVariants` entries. -/
def processVariantsBatch (pid pIdx : Nat) :
    List (List Char) → Nat → List Variant →
      List (List Char) × List (Nat × List Char)
  | existing, _, [] => (existing, [])
  | existing, vIdx, v :: rest =>
    let r1 := processVariantBatch existing pid (pIdx * 100 + vIdx) v
    let r2 := processVariantsBatch pid pIdx r1.1 (vIdx + 1) rest
    (r2.1, r1.2 ++ r2.2)

/-- `getExistingBarcodes` (`api/update-products-barra.js` lines 102-114):
every truthy `variant.barcode` of every fetched product. -/
def getExistingBarcodes (products : List Product) : List (List Char) :=
  (products.map (fun p =>
    (p.variants.map Variant.barcode).filter (fun b => b ≠ []))).flatten

/-- Aggregate outcome of the batch loop: the PUT requests attempted in
order, the titles pushed onto `updated` (successful PUTs only), the final
`existingBarcodes`, and the error reaching the outer `catch`, if any. -/
structure BatchOutcome where
  requests : List UpdateRequest
  updatedTitles : List (List Char)
  existing : List (List Char)
  generalError : Option (List Char)

/-- The main `for` of `updateProducts` (`api/update-products-barra.js`
lines 137-256).  `mf` gives each product's metafields fetch result, `upd`
each product's PUT result.  A non-matching product is skipped; a metafields
failure escapes to the outer `try`/`catch`, aborting the rest of the loop; a
PUT failure is caught per item and only skips the `updated.push`. -/
def updateProductsLoop (mf : Nat → Except (List Char) (List Metafield))
    (upd : Nat → Except (List Char) Unit) :
    List (List Char) → Nat → List Product → BatchOutcome
  | existing, _, [] => ⟨[], [], existing, none⟩
  | existing, pIdx, p :: rest =>
    match tagMatch p with
    | none => updateProductsLoop mf upd existing (pIdx + 1) rest
    | some tm =>
      match mf p.id with
      | .error e => ⟨[], [], existing, some e⟩
      | .ok metafields =>
        let desc := batchDescription tm p.title
          (getMeta metafields ("dimensions".toList))
          (getMeta metafields ("includes".toList))
          (getMeta metafields ("warranty".toList))
        let r := processVariantsBatch p.id pIdx existing 0 p.variants
        let tail := updateProductsLoop mf upd r.1 (pIdx + 1) rest
        match upd p.id with
        | .ok _ => ⟨⟨p.id, desc, r.2⟩ :: tail.requests,
            p.title :: tail.updatedTitles, tail.existing, tail.generalError⟩
        | .error _ => ⟨⟨p.id, desc, r.2⟩ :: tail.requests,
            tail.updatedTitles, tail.existing, tail.generalError⟩

/-- `updateProducts` after a successful `fetchAllProducts`: the existing
barcodes are collected first, then the loop runs from `productIndex = 0`. -/
def updateProducts (mf : Nat → Except (List Char) (List Metafield))
    (upd : Nat → Except (List Char) Unit) (products : List Product) :
    BatchOutcome :=
  updateProductsLoop mf upd (getExistingBarcodes products) 0 products

/-- The `variants.forEach` of `processNewProduct` (`part_001`
lines 116-126): a variant without a truthy barcode gets
`generateUniqueBarcode(product.id, index)`; nothing is checked against any
existing code. -/
def webhookAssignmentsAux (pid : Nat) : Nat → List Variant → List (Nat × List Char)
  | _, [] => []
  | i, v :: rest =>
    (if v.barcode = [] then [(v.id, generateUniqueBarcode pid i)] else [])
      ++ webhookAssignmentsAux pid (i + 1) rest

/-- The generated `(variant id, barcode)` pairs of one webhook call. -/
def webhookAssignments (p : Product) : List (Nat × List Char) :=
  webhookAssignmentsAux p.id 0 p.variants

/-- The update payload `processNewProduct` builds (`part_001`
lines 128-140): `body_html` only when the existing one is missing or blank
after `trim`, `variants` the generated pairs. -/
structure WebhookPayload where
  id : Nat
  body_html : Option (List Char)
  variants : List (Nat × List Char)

/-- The payload construction of `processNewProduct`. -/
def webhookPayload (p : Product) : WebhookPayload :=
  ⟨p.id,
   if p.body_html = [] ∨ jsTrim p.body_html = [] then
     some (generateProductDescription p)
   else none,
   webhookAssignments p⟩

/-- Environment of the Netlify handler: the optional webhook secret. -/
structure WebhookEnv where
  secret : Option (List Char)

/-- The inbound event: HTTP method, the `x-shopify-hmac-sha256` header
(`none` when absent) and the raw body. -/
structure WebhookEvent where
  httpMethod : List Char
  hmacHeader : Option (List Char)
  body : List Char

/-- JS truthiness of an optional string: `undefined` and `""` are falsy. -/
def truthyStr : Option (List Char) → Bool
  | none => false
  | some [] => false
  | some (_ :: _) => true

/-- The body-processing tail of the handler (`part_001` lines 251-288):
parse the body (`.error` models a `JSON.parse` throw, landing in the outer
`catch` as a 500; `.ok none` a falsy parse result), reject a falsy product
id with 400, then run `processNewProduct` — 500 on a thrown error, 200
otherwise. -/
def handleParsedBody (parse : List Char → Except (List Char) (Option Product))
    (process : Product → Except (List Char) Unit) (body : List Char) : Nat :=
  match parse body with
  | .error _ => 500
  | .ok none => 400
  | .ok (some p) =>
    if p.id = 0 then 400
    else
      match process p with
      | .error _ => 500
      | .ok _ => 200

/-- `exports.handler` (`part_001` lines 225-306): 405 for non-POST; the
HMAC verification runs only when both the configured secret and the
`x-shopify-hmac-sha256` header are truthy, and 401 is returned when the
computed digest differs from the header; in every other case the body is
parsed and processed.  `hmac` abstracts `crypto.createHmac('sha256',
secret).update(body).digest('base64')`. -/
def handler (hmac : List Char → List Char → List Char)
    (parse : List Char → Except (List Char) (Option Product))
    (process : Product → Except (List Char) Unit)
    (env : WebhookEnv) (event : WebhookEvent) : Nat :=
  if event.httpMethod ≠ ("POST".toList) then 405
  else if truthyStr env.secret && truthyStr event.hmacHeader
      && !(hmac (env.secret.getD []) event.body == event.hmacHeader.getD []) then 401
  else handleParsedBody parse process event.body

/-- A metafields oracle that always succeeds with an empty list. -/
def mfOkAll : Nat → Except (List Char) (List Metafield) := fun _ => .ok []

/-- A PUT oracle that always succeeds. -/
def updOkAll : Nat → Except (List Char) Unit := fun _ => .ok ()

/-- A tag-matched product with one barcode-less variant. -/
def cexProductA : Product :=
  ⟨7, ("P1".toList), ("all-jumpers".toList), [], [⟨1, []⟩]⟩

/-- A second tag-matched product. -/
def cexProductB : Product :=
  ⟨8, ("P2".toList), ("water-slides".toList), [], []⟩

/-- A product whose tags match no allowlist entry. -/
def cexProductC : Product :=
  ⟨9, ("P3".toList), ("other-tag".toList), [], []⟩

/-- A tag-matched product that already carries a non-empty description. -/
def cexDescribedProduct : Product :=
  ⟨7, ("P1".toList), ("all-jumpers".toList), ("old".toList), []⟩

/-- A webhook payload product: variant 1 already carries the very barcode
the generator will produce for variant index 1, variant 2 has none. -/
def cexWebhookProduct : Product :=
  ⟨5, ("W".toList), [], ("x".toList),
   [⟨1, generateUniqueBarcode 5 1⟩, ⟨2, []⟩]⟩

/-- A concrete stand-in for the HMAC-SHA256-base64 digest. -/
def cexHmacFn : List Char → List Char → List Char := fun k b => k ++ b

/-- A concrete parse oracle whose result is falsy. -/
def cexParseFn : List Char → Except (List Char) (Option Product) := fun _ => .ok none

/-- A concrete processing oracle that always succeeds. -/
def cexProcessFn : Product → Except (List Char) Unit := fun _ => .ok ()

/-- An environment with no webhook secret configured. -/
def cexEnvNoSecret : WebhookEnv := ⟨none⟩

/-- A POST event carrying no HMAC header. -/
def cexEventPost : WebhookEvent := ⟨("POST".toList), none, []⟩

-- ===================================================================
-- Theorems
-- ===================================================================

theorem natToDigitsAux_congr (n : Nat) :
    ∀ f₁ f₂, n < f₁ → n < f₂ → natToDigitsAux f₁ n = natToDigitsAux f₂ n := by
  induction n using Nat.strong_induction_on with
  | _ n ih =>
    intro f₁ f₂ h₁ h₂
    match f₁, f₂ with
    | f₁ + 1, f₂ + 1 =>
      by_cases h : n < 10
      · simp [natToDigitsAux, h]
      · have hd : n / 10 < n := Nat.div_lt_self (by omega) (by omega)
        simp only [natToDigitsAux, if_neg h]
        rw [ih (n / 10) hd f₁ f₂ (by omega) (by omega)]

theorem jsString_lt (n : Nat) (h : n < 10) : jsString n = [digitChar n] := by
  simp [jsString, natToDigitsAux, h]

theorem jsString_ge (n : Nat) (h : 10 ≤ n) :
    jsString n = jsString (n / 10) ++ [digitChar (n % 10)] := by
  have hd : n / 10 < n := Nat.div_lt_self (by omega) (by omega)
  unfold jsString
  conv_lhs => rw [natToDigitsAux]
  rw [if_neg (by omega : ¬ n < 10)]
  rw [natToDigitsAux_congr (n / 10) n (n / 10 + 1) (by omega) (by omega)]

theorem jsString_length_pos (n : Nat) : 1 ≤ (jsString n).length := by
  by_cases h : n < 10
  · simp [jsString_lt n h]
  · simp [jsString_ge n (by omega)]

theorem lastDigits_length (k n : Nat) : (lastDigits k n).length = k := by
  induction k generalizing n with
  | zero => rfl
  | succ k ih => simp [lastDigits, ih]

theorem lastDigits_zero (k : Nat) : lastDigits k 0 = List.replicate k '0' := by
  induction k with
  | zero => rfl
  | succ k ih =>
    rw [lastDigits, ih, List.replicate_succ']
    rfl

theorem lastDigits_mod (k n : Nat) : lastDigits k n = lastDigits k (n % 10 ^ k) := by
  induction k generalizing n with
  | zero => rfl
  | succ k ih =>
    have h1 : n % 10 ^ (k + 1) % 10 = n % 10 :=
      Nat.mod_mod_of_dvd n ⟨10 ^ k, by ring⟩
    have h2 : n % 10 ^ (k + 1) / 10 = n / 10 % 10 ^ k := by
      have : (10 : Nat) ^ (k + 1) = 10 * 10 ^ k := by ring
      rw [this, Nat.mod_mul_right_div_self]
    rw [lastDigits, lastDigits, h1, h2, ih (n / 10)]

theorem padStart_jsString_eq_lastDigits (k : Nat) :
    ∀ n, 1 ≤ k → n < 10 ^ k → padStart k '0' (jsString n) = lastDigits k n := by
  induction k with
  | zero => intro n h; omega
  | succ k ih =>
    intro n _ hn
    by_cases h : n < 10
    · rw [jsString_lt n h]
      have hn10 : n / 10 = 0 := by omega
      rw [lastDigits, hn10, lastDigits_zero, Nat.mod_eq_of_lt h]
      simp [padStart]
    · have hk : 1 ≤ k := by
        by_contra hk
        have : k = 0 := by omega
        subst this; simp at hn; omega
      have hdiv : n / 10 < 10 ^ k := by
        rw [Nat.div_lt_iff_lt_mul (by omega)]
        calc n < 10 ^ (k + 1) := hn
        _ = 10 ^ k * 10 := by ring
      have ihh := ih (n / 10) hk hdiv
      rw [jsString_ge n (by omega), lastDigits]
      simp only [padStart] at ihh ⊢
      rw [List.length_append]
      simp only [List.length_singleton]
      have : k + 1 - ((jsString (n / 10)).length + 1) = k - (jsString (n / 10)).length := by
        omega
      rw [this, ← List.append_assoc, ihh]

theorem jsString_split (k : Nat) :
    ∀ n, 10 ^ k ≤ n → jsString n = jsString (n / 10 ^ k) ++ lastDigits k n := by
  induction k with
  | zero => intro n _; simp [lastDigits]
  | succ k ih =>
    intro n hn
    have hpow : (10 : Nat) ≤ 10 ^ (k + 1) := by
      calc (10 : Nat) = 10 ^ 1 := (pow_one 10).symm
      _ ≤ 10 ^ (k + 1) := Nat.pow_le_pow_right (by omega) (by omega)
    have h10 : 10 ≤ n := le_trans hpow hn
    have hdiv : 10 ^ k ≤ n / 10 := by
      rw [Nat.le_div_iff_mul_le (by omega)]
      calc 10 ^ k * 10 = 10 ^ (k + 1) := by ring
      _ ≤ n := hn
    rw [jsString_ge n h10, ih (n / 10) hdiv, lastDigits, List.append_assoc]
    have : n / 10 / 10 ^ k = n / 10 ^ (k + 1) := by
      rw [Nat.div_div_eq_div_mul]
      congr 1
      ring
    rw [this]

theorem jsString_length_le (k n : Nat) (hk : 1 ≤ k) (hn : n < 10 ^ k) :
    (jsString n).length ≤ k := by
  have h := padStart_jsString_eq_lastDigits k n hk hn
  have hlen : (padStart k '0' (jsString n)).length = k := by
    rw [h, lastDigits_length]
  simp only [padStart, List.length_append, List.length_replicate] at hlen
  omega

theorem sliceLast_padStart_jsString (n : Nat) :
    sliceLast 6 (padStart 6 '0' (jsString n)) = lastDigits 6 n := by
  by_cases h : n < 10 ^ 6
  · rw [padStart_jsString_eq_lastDigits 6 n (by omega) h]
    simp [sliceLast, lastDigits_length]
  · have hn : 10 ^ 6 ≤ n := by omega
    have hsplit := jsString_split 6 n hn
    have hlen : 6 ≤ (jsString n).length := by
      rw [hsplit]
      simp [lastDigits_length]
    simp only [padStart, sliceLast]
    rw [Nat.sub_eq_zero_of_le hlen]
    simp only [List.replicate_zero, List.nil_append]
    rw [hsplit, List.length_append, lastDigits_length]
    have : (jsString (n / 10 ^ 6)).length + 6 - 6 = (jsString (n / 10 ^ 6)).length := by
      omega
    rw [this, List.drop_left]

theorem digitVal_digitChar (d : Nat) (h : d < 10) : digitVal (digitChar d) = d := by
  interval_cases d <;> rfl

theorem isDigit_digitChar (d : Nat) (h : d < 10) : (digitChar d).isDigit = true := by
  interval_cases d <;> rfl

theorem jsString_chars (n : Nat) : ∀ c ∈ jsString n, ∃ d, d < 10 ∧ c = digitChar d := by
  induction n using Nat.strong_induction_on with
  | _ n ih =>
    by_cases h : n < 10
    · rw [jsString_lt n h]
      intro c hc
      simp only [List.mem_singleton] at hc
      exact ⟨n, h, hc⟩
    · rw [jsString_ge n (by omega)]
      intro c hc
      rcases List.mem_append.mp hc with h1 | h2
      · exact ih (n / 10) (Nat.div_lt_self (by omega) (by omega)) c h1
      · simp only [List.mem_singleton] at h2
        exact ⟨n % 10, Nat.mod_lt _ (by omega), h2⟩

theorem lastDigits_chars (k : Nat) :
    ∀ n, ∀ c ∈ lastDigits k n, ∃ d, d < 10 ∧ c = digitChar d := by
  induction k with
  | zero => simp [lastDigits]
  | succ k ih =>
    intro n c hc
    rw [lastDigits] at hc
    rcases List.mem_append.mp hc with h1 | h2
    · exact ih (n / 10) c h1
    · simp only [List.mem_singleton] at h2
      exact ⟨n % 10, Nat.mod_lt _ (by omega), h2⟩

theorem jsString_foldl (n : Nat) :
    ∀ a, (jsString n).foldl (fun a c => 10 * a + digitVal c) a
      = a * 10 ^ (jsString n).length + n := by
  induction n using Nat.strong_induction_on with
  | _ n ih =>
    intro a
    by_cases h : n < 10
    · rw [jsString_lt n h]
      simp only [List.foldl_cons, List.foldl_nil, List.length_singleton,
        digitVal_digitChar n h]
      ring
    · rw [jsString_ge n (by omega)]
      rw [List.foldl_append]
      rw [ih (n / 10) (Nat.div_lt_self (by omega) (by omega)) a]
      simp only [List.foldl_cons, List.foldl_nil, List.length_append,
        List.length_singleton, digitVal_digitChar (n % 10) (Nat.mod_lt _ (by omega))]
      have hdm := Nat.div_add_mod n 10
      have : a * 10 ^ ((jsString (n / 10)).length + 1)
          = a * 10 ^ (jsString (n / 10)).length * 10 := by ring
      rw [this]
      omega

theorem digitsToNat_jsString (n : Nat) : digitsToNat (jsString n) = n := by
  have h := jsString_foldl n 0
  simpa [digitsToNat] using h

theorem foldl_replicate_zeroChar (m : Nat) :
    (List.replicate m '0').foldl (fun a c => 10 * a + digitVal c) 0 = 0 := by
  induction m with
  | zero => rfl
  | succ m ih => simpa [List.replicate_succ] using ih

theorem digitsToNat_padStart (k : Nat) (l : List Char) :
    digitsToNat (padStart k '0' l) = digitsToNat l := by
  simp only [padStart, digitsToNat, List.foldl_append, foldl_replicate_zeroChar]

theorem padStart_jsString_inj (k i j : Nat)
    (h : padStart k '0' (jsString i) = padStart k '0' (jsString j)) : i = j := by
  have hi := digitsToNat_padStart k (jsString i)
  have hj := digitsToNat_padStart k (jsString j)
  rw [digitsToNat_jsString] at hi hj
  rw [← hi, ← hj, h]

theorem baseCode_eq (pid idx : Nat) :
    baseCode pid idx
      = ('2' :: '0' :: '0' :: []) ++ lastDigits 6 pid ++ padStart 3 '0' (jsString idx) := by
  rw [baseCode, sliceLast_padStart_jsString]

theorem checkDigit_lt (l : List Char) : checkDigit l < 10 :=
  Nat.mod_lt _ (by omega)

theorem baseCode_length (pid idx : Nat) (h : idx ≤ 999) :
    (baseCode pid idx).length = 12 := by
  rw [baseCode_eq]
  have hl := jsString_length_le 3 idx (by omega) (by omega : idx < 10 ^ 3)
  have hp : (padStart 3 '0' (jsString idx)).length = 3 := by
    simp only [padStart, List.length_append, List.length_replicate]
    omega
  simp only [List.length_append, lastDigits_length, hp]
  rfl

theorem generateUniqueBarcode_mod (a b idx : Nat) (h : a % 10 ^ 6 = b % 10 ^ 6) :
    generateUniqueBarcode a idx = generateUniqueBarcode b idx := by
  have hbase : baseCode a idx = baseCode b idx := by
    rw [baseCode_eq, baseCode_eq, lastDigits_mod 6 a, h, ← lastDigits_mod 6 b]
  rw [generateUniqueBarcode, generateUniqueBarcode, hbase]

theorem generateUniqueBarcode_inj (pid i j : Nat)
    (h : generateUniqueBarcode pid i = generateUniqueBarcode pid j) : i = j := by
  rw [generateUniqueBarcode, generateUniqueBarcode, baseCode_eq, baseCode_eq,
    jsString_lt _ (checkDigit_lt _), jsString_lt _ (checkDigit_lt _)] at h
  simp only [List.append_assoc] at h
  have h2 := List.append_cancel_left h
  have h3 := List.append_cancel_left h2
  have hlen := congrArg List.length h3
  simp only [List.length_append, List.length_singleton] at hlen
  have h4 := List.append_inj_left h3 (by omega)
  exact padStart_jsString_inj 3 i j h4

theorem ean13Sum_eq_map_sum (l : List Char) :
    ean13Sum l = ((List.range 12).map fun i =>
      (if i % 2 = 0 then 1 else 3) * digitVal (l.getD i '0')).sum := by
  simp [ean13Sum, List.range_succ]
  omega

theorem padStart_chars (w : Nat) (c : Char) (l : List Char) :
    ∀ x ∈ padStart w c l, x = c ∨ x ∈ l := by
  intro x hx
  rcases List.mem_append.mp hx with h1 | h2
  · exact Or.inl (List.eq_of_mem_replicate h1)
  · exact Or.inr h2

theorem generateUniqueBarcode_chars (pid idx : Nat) :
    ∀ c ∈ generateUniqueBarcode pid idx, c.isDigit = true := by
  intro c hc
  rw [generateUniqueBarcode, baseCode_eq] at hc
  have hdig : ∀ d : Nat, d < 10 → (digitChar d).isDigit = true := isDigit_digitChar
  rcases List.mem_append.mp hc with h1 | hcd
  · rcases List.mem_append.mp h1 with h2 | hpad
    · rcases List.mem_append.mp h2 with h3 | hld
      · fin_cases h3 <;> rfl
      · obtain ⟨d, hd, rfl⟩ := lastDigits_chars 6 pid c hld
        exact hdig d hd
    · rcases padStart_chars 3 '0' (jsString idx) c hpad with rfl | hj
      · rfl
      · obtain ⟨d, hd, rfl⟩ := jsString_chars idx c hj
        exact hdig d hd
  · obtain ⟨d, hd, rfl⟩ := jsString_chars _ c hcd
    exact hdig d hd

theorem generateUniqueBarcode_split (pid idx : Nat) :
    generateUniqueBarcode pid idx
      = baseCode pid idx ++ [digitChar (checkDigit (baseCode pid idx))] := by
  rw [generateUniqueBarcode, jsString_lt _ (checkDigit_lt _)]

theorem generateUniqueBarcode_length (pid idx : Nat) (h : idx ≤ 999) :
    (generateUniqueBarcode pid idx).length = 13 := by
  rw [generateUniqueBarcode_split, List.length_append, baseCode_length pid idx h]
  rfl

theorem generateUniqueBarcode_getD_lt (pid idx : Nat) (h : idx ≤ 999)
    (i : Nat) (hi : i < 12) :
    (generateUniqueBarcode pid idx).getD i '0' = (baseCode pid idx).getD i '0' := by
  rw [generateUniqueBarcode_split]
  exact List.getD_append _ _ _ _ (by rw [baseCode_length pid idx h]; omega)

theorem generateUniqueBarcode_getD_12 (pid idx : Nat) (h : idx ≤ 999) :
    (generateUniqueBarcode pid idx).getD 12 '0'
      = digitChar (checkDigit (baseCode pid idx)) := by
  have hlen := baseCode_length pid idx h
  rw [generateUniqueBarcode_split]
  rw [List.getD_append_right _ _ _ _ (by omega)]
  simp [hlen]

/-- Claim C1, amended: for every product id and every index of at most 999
(so that `String(index).padStart(3,'0')` really has width 3),
`generateUniqueBarcode` returns a string of exactly 13 decimal digits whose
final digit is the EAN-13 check digit of the first 12, with weights
alternating 1,3,1,3,… -/
theorem C1_barcode_is_ean13 (pid idx : Nat) (h : idx ≤ 999) :
    (generateUniqueBarcode pid idx).length = 13 ∧
    (∀ c ∈ generateUniqueBarcode pid idx, c.isDigit = true) ∧
    digitVal ((generateUniqueBarcode pid idx).getD 12 '0') =
      (10 - (((List.range 12).map fun i =>
        (if i % 2 = 0 then 1 else 3) *
          digitVal ((generateUniqueBarcode pid idx).getD i '0')).sum % 10)) % 10 := by
  refine ⟨generateUniqueBarcode_length pid idx h, generateUniqueBarcode_chars pid idx, ?_⟩
  have hmap : ((List.range 12).map fun i =>
      (if i % 2 = 0 then 1 else 3) *
        digitVal ((generateUniqueBarcode pid idx).getD i '0')).sum
      = ((List.range 12).map fun i =>
      (if i % 2 = 0 then 1 else 3) *
        digitVal ((baseCode pid idx).getD i '0')).sum := by
    refine congrArg List.sum (List.map_congr_left ?_)
    intro i hi
    rw [generateUniqueBarcode_getD_lt pid idx h i (List.mem_range.mp hi)]
  rw [hmap, ← ean13Sum_eq_map_sum, generateUniqueBarcode_getD_12 pid idx h,
    digitVal_digitChar _ (checkDigit_lt _)]
  rfl

/-- Witness for C1's amended theorem at a concrete input. -/
theorem C1_barcode_is_ean13_witness :
    (generateUniqueBarcode 123456 7).length = 13 :=
  (C1_barcode_is_ean13 123456 7 (by decide)).1

/-- Counterexample to claim C1 as stated: at index 1000 (reachable in the
batch script, where the index is `productIndex * 100 + variantIndex +
attempts`) the generated code has 14 characters, not 13. -/
theorem C1_counterexample :
    ¬ ((generateUniqueBarcode 123456 1000).length = 13) := by decide

/-- Claim C9: `generateUniqueBarcode` depends only on the last six decimal
digits of the product id (and the index); two distinct product ids that agree
on those six digits collide. -/
theorem C9_barcode_last_six_digits :
    (∀ a b idx : Nat, a % 1000000 = b % 1000000 →
        generateUniqueBarcode a idx = generateUniqueBarcode b idx) ∧
    generateUniqueBarcode 1000001 0 = generateUniqueBarcode 1 0 ∧
    (1000001 : Nat) ≠ 1 := by
  refine ⟨fun a b idx hab => generateUniqueBarcode_mod a b idx ?_, by decide, by decide⟩
  have h6 : (10 : Nat) ^ 6 = 1000000 := by norm_num
  rw [h6]
  exact hab

/-- Witness for C9's theorem at a concrete input. -/
theorem C9_barcode_last_six_digits_witness :
    generateUniqueBarcode 2000123 7 = generateUniqueBarcode 123 7 :=
  C9_barcode_last_six_digits.1 2000123 123 7 (by decide)

theorem shopifyFetchAux_shift (resp : Nat → HttpResponse) :
    ∀ r i, shopifyFetchAux resp (i + 1) r
      = shopifyFetchAux (fun j => resp (j + 1)) i r := by
  intro r
  induction r with
  | zero => intro i; rfl
  | succ r ih =>
    intro i
    simp only [shopifyFetchAux]
    rw [ih (i + 1)]

theorem shopifyFetch_first_non429 (k : Nat) :
    ∀ (resp : Nat → HttpResponse) (r : Nat), k < r →
      (∀ j, j < k → (resp j).status = 429) → (resp k).status ≠ 429 →
      shopifyFetch resp r =
        ((if resOk (resp k) then FetchOutcome.success (resp k)
          else FetchOutcome.httpError (resp k).status (resp k).statusText),
         (List.range k).map fun j => retryWaitMs ((resp j).headers retryAfterKey)) := by
  induction k with
  | zero =>
    intro resp r hr h429 hk
    match r, hr with
    | r + 1, _ =>
      simp only [shopifyFetch, shopifyFetchAux]
      rw [if_neg hk]
      by_cases hok : resOk (resp 0) <;> simp [hok]
  | succ k ih =>
    intro resp r hr h429 hk
    match r, hr with
    | r + 1, _ =>
      have h0 : (resp 0).status = 429 := h429 0 (by omega)
      have hrec := ih (fun j => resp (j + 1)) r (by omega)
        (fun j hj => h429 (j + 1) (by omega)) hk
      simp only [shopifyFetch] at hrec
      simp only [shopifyFetch, shopifyFetchAux]
      rw [if_pos h0, shopifyFetchAux_shift resp r 0, hrec]
      simp only [List.range_succ_eq_map, List.map_cons, List.map_map]
      rfl

theorem shopifyFetch_all429 :
    ∀ (r : Nat) (resp : Nat → HttpResponse), (∀ j, j < r → (resp j).status = 429) →
      shopifyFetch resp r =
        (FetchOutcome.exhausted,
         (List.range r).map fun j => retryWaitMs ((resp j).headers retryAfterKey)) := by
  intro r
  induction r with
  | zero => intro resp _; rfl
  | succ r ih =>
    intro resp h429
    have hrec := ih (fun j => resp (j + 1)) (fun j hj => h429 (j + 1) (by omega))
    simp only [shopifyFetch] at hrec
    simp only [shopifyFetch, shopifyFetchAux]
    rw [if_pos (h429 0 (by omega)), shopifyFetchAux_shift resp r 0, hrec]
    simp only [List.range_succ_eq_map, List.map_cons, List.map_map]
    rfl

theorem webhookShopifyFetchAux_shift (resp : Nat → HttpResponse) :
    ∀ r i, webhookShopifyFetchAux resp (i + 1) r
      = webhookShopifyFetchAux (fun j => resp (j + 1)) i r := by
  intro r
  induction r with
  | zero => intro i; rfl
  | succ r ih =>
    intro i
    simp only [webhookShopifyFetchAux]
    rw [ih (i + 1)]

theorem webhookShopifyFetch_all429 :
    ∀ (r : Nat) (resp : Nat → HttpResponse), (∀ j, j < r → (resp j).status = 429) →
      webhookShopifyFetch resp r =
        (WebhookFetchOutcome.undefinedResult,
         (List.range r).map fun j => retryWaitMs ((resp j).headers retryAfterKey)) := by
  intro r
  induction r with
  | zero => intro resp _; rfl
  | succ r ih =>
    intro resp h429
    have hrec := ih (fun j => resp (j + 1)) (fun j hj => h429 (j + 1) (by omega))
    simp only [webhookShopifyFetch] at hrec
    simp only [webhookShopifyFetch, webhookShopifyFetchAux]
    rw [if_pos (h429 0 (by omega)), webhookShopifyFetchAux_shift resp r 0, hrec]
    simp only [List.range_succ_eq_map, List.map_cons, List.map_map]
    rfl

theorem webhookShopifyFetch_error_retries (resp : Nat → HttpResponse) (r : Nat)
    (hr : 2 ≤ r) (hst : (resp 0).status ≠ 429) (hok : resOk (resp 0) = false) :
    webhookShopifyFetch resp r
      = ((webhookShopifyFetchAux resp 1 (r - 1)).1,
         some 1000 :: (webhookShopifyFetchAux resp 1 (r - 1)).2) := by
  match r, hr with
  | r + 2, _ =>
    simp only [webhookShopifyFetch, webhookShopifyFetchAux]
    rw [if_neg hst]
    simp [hok]

theorem webhookShopifyFetch_error_last (resp : Nat → HttpResponse)
    (hst : (resp 0).status ≠ 429) (hok : resOk (resp 0) = false) :
    webhookShopifyFetch resp 1
      = (.thrown (resp 0).status (resp 0).bodyText, []) := by
  simp only [webhookShopifyFetch, webhookShopifyFetchAux]
  rw [if_neg hst]
  simp [hok]

/-- Claim C2, amended: the batch `shopifyFetch` retries only on 429, throws
immediately on a non-429 error response, and throws once all attempts were
consumed by 429s; the webhook variant instead catches a non-429 error,
sleeps 1 s and re-issues the request unless the error happened on the final
attempt (only then is it rethrown), and returns `undefined` rather than
throwing when every attempt returned 429. -/
theorem C2_retry_policy :
    (∀ (resp : Nat → HttpResponse) (r k : Nat), k < r →
       (∀ j, j < k → (resp j).status = 429) → (resp k).status ≠ 429 →
       resOk (resp k) = false →
       shopifyFetch resp r
         = (.httpError (resp k).status (resp k).statusText,
            (List.range k).map fun j => retryWaitMs ((resp j).headers retryAfterKey))) ∧
    (∀ (resp : Nat → HttpResponse) (r k : Nat), k < r →
       (∀ j, j < k → (resp j).status = 429) → (resp k).status ≠ 429 →
       resOk (resp k) = true →
       (shopifyFetch resp r).1 = .success (resp k)) ∧
    (∀ (resp : Nat → HttpResponse) (r : Nat),
       (∀ j, j < r → (resp j).status = 429) →
       (shopifyFetch resp r).1 = .exhausted) ∧
    (∀ (resp : Nat → HttpResponse) (r : Nat), 2 ≤ r →
       (resp 0).status ≠ 429 → resOk (resp 0) = false →
       webhookShopifyFetch resp r
         = ((webhookShopifyFetchAux resp 1 (r - 1)).1,
            some 1000 :: (webhookShopifyFetchAux resp 1 (r - 1)).2)) ∧
    (∀ resp : Nat → HttpResponse,
       (resp 0).status ≠ 429 → resOk (resp 0) = false →
       webhookShopifyFetch resp 1 = (.thrown (resp 0).status (resp 0).bodyText, [])) ∧
    (∀ (resp : Nat → HttpResponse) (r : Nat),
       (∀ j, j < r → (resp j).status = 429) →
       (webhookShopifyFetch resp r).1 = .undefinedResult) := by
  refine ⟨?_, ?_, ?_, webhookShopifyFetch_error_retries,
    webhookShopifyFetch_error_last, ?_⟩
  · intro resp r k hk h429 hs hok
    rw [shopifyFetch_first_non429 k resp r hk h429 hs]
    simp [hok]
  · intro resp r k hk h429 hs hok
    rw [shopifyFetch_first_non429 k resp r hk h429 hs]
    simp [hok]
  · intro resp r h429
    rw [shopifyFetch_all429 r resp h429]
  · intro resp r h429
    rw [webhookShopifyFetch_all429 r resp h429]

/-- Witness for C2's amended theorem at a concrete input. -/
theorem C2_retry_policy_witness :
    shopifyFetch cexServerError 5
      = (.httpError (cexServerError 0).status (cexServerError 0).statusText,
         (List.range 0).map fun j => retryWaitMs ((cexServerError j).headers retryAfterKey)) :=
  C2_retry_policy.1 cexServerError 5 0 (by decide)
    (fun j hj => absurd hj (Nat.not_lt_zero j)) (by decide) (by decide)

/-- Counterexample to claim C2 as stated: in the webhook `shopifyFetch` a
non-429 error response (here a 500 on the first attempt) does not make the
call throw immediately — the error is caught, the request re-issued after a
1 s sleep, and the call succeeds on the second attempt. -/
theorem C2_counterexample :
    (cexServerError 0).status = 500 ∧ resOk (cexServerError 0) = false ∧
    webhookShopifyFetch cexServerError 3
      = (.success (cexServerError 1), [some 1000]) :=
  ⟨rfl, rfl, rfl⟩

/-- Claim C8: on every 429 response the retry loop sleeps the number of
seconds parsed from the `Retry-After` header (×1000 for milliseconds), and
2 seconds when the header is absent. -/
theorem C8_retry_after_backoff :
    (∀ (resp : Nat → HttpResponse) (r : Nat),
       (∀ j, j < r → (resp j).status = 429) →
       (shopifyFetch resp r).2
         = (List.range r).map fun j => retryWaitMs ((resp j).headers retryAfterKey)) ∧
    retryWaitMs none = some 2000 ∧
    (∀ (s : List Char) (n : Int), s ≠ [] → jsParseInt s = some n →
       retryWaitMs (some s) = some (n * 1000)) := by
  refine ⟨?_, by decide, ?_⟩
  · intro resp r h429
    rw [shopifyFetch_all429 r resp h429]
  · intro s n hs hparse
    simp [retryWaitMs, retryAfterValue, if_neg hs, hparse]

/-- Witness for C8's theorem at a concrete input. -/
theorem C8_retry_after_backoff_witness :
    retryWaitMs (some ("7".toList)) = some (7 * 1000) :=
  C8_retry_after_backoff.2.2 ("7".toList) 7 (by decide) (by decide)

theorem takeWhile_append_all (p : Char → Bool) (u v : List Char)
    (hu : ∀ c ∈ u, p c = true) : (u ++ v).takeWhile p = u ++ v.takeWhile p := by
  induction u with
  | nil => rfl
  | cons c u ih =>
    have hc := hu c (List.mem_cons_self c u)
    have ih2 := ih (fun x hx => hu x (List.mem_cons_of_mem c hx))
    simp [List.takeWhile_cons, hc, ih2]

theorem dropWhile_append_all (p : Char → Bool) (u v : List Char)
    (hu : ∀ c ∈ u, p c = true) : (u ++ v).dropWhile p = v.dropWhile p := by
  induction u with
  | nil => rfl
  | cons c u ih =>
    have hc := hu c (List.mem_cons_self c u)
    have ih2 := ih (fun x hx => hu x (List.mem_cons_of_mem c hx))
    simp [List.dropWhile_cons, hc, ih2]

theorem hasSubstr_of_append (pat v : List Char) (h : pat.isPrefixOf v = true) :
    ∀ u, hasSubstr pat (u ++ v) = true := by
  intro u
  induction u with
  | nil =>
    cases v with
    | nil => simpa [hasSubstr] using h
    | cons c rest => simp [hasSubstr, h]
  | cons c u ih => simp [hasSubstr, ih]

theorem matchNextAt_wellformed (u : List Char) (hne : u ≠ []) (hgt : '>' ∉ u) :
    matchNextAt (('<' :: u) ++ relNextLit) = some u := by
  have hall : ∀ c ∈ u, (!(c == '>')) = true := by
    intro c hc
    have hcne : c ≠ '>' := fun hh => hgt (hh ▸ hc)
    simp [hcne]
  have ht : (u ++ relNextLit).takeWhile (fun x => !(x == '>')) = u := by
    rw [takeWhile_append_all _ u relNextLit hall]
    have hrl : relNextLit.takeWhile (fun x => !(x == '>')) = [] := by decide
    simp [hrl]
  have hd : (u ++ relNextLit).dropWhile (fun x => !(x == '>')) = relNextLit := by
    rw [dropWhile_append_all _ u relNextLit hall]
    decide
  rw [List.cons_append]
  simp only [matchNextAt, ht, hd, if_pos rfl]
  have hpf : relNextLit.isPrefixOf relNextLit = true := by decide
  have hcond : u ≠ [] ∧ relNextLit.isPrefixOf relNextLit = true := And.intro hne hpf
  rw [if_pos hcond]
  simp

theorem findRelNext_wellformed (u : List Char) (hne : u ≠ []) (hgt : '>' ∉ u) :
    findRelNext (('<' :: u) ++ relNextLit) = some u := by
  rw [List.cons_append]
  simp only [findRelNext]
  rw [← List.cons_append, matchNextAt_wellformed u hne hgt]

theorem parseNextUrl_wellformed (u : List Char) (hne : u ≠ []) (hgt : '>' ∉ u) :
    parseNextUrl (some (('<' :: u) ++ relNextLit)) = some u := by
  have hsub : hasSubstr (("rel=\"next\"".toList)) (('<' :: u) ++ relNextLit) = true := by
    have hdecomp : ('<' :: u) ++ relNextLit
        = (('<' :: u) ++ (">; ".toList)) ++ ("rel=\"next\"".toList) := by
      rw [List.append_assoc]
      have : relNextLit = (">; ".toList) ++ ("rel=\"next\"".toList) := by decide
      rw [this]
    rw [hdecomp]
    exact hasSubstr_of_append _ _ (by decide) _
  simp only [parseNextUrl]
  have hcond : ('<' :: u) ++ relNextLit ≠ [] ∧
      hasSubstr (("rel=\"next\"".toList)) (('<' :: u) ++ relNextLit) = true :=
    And.intro (by simp) hsub
  rw [if_pos hcond]
  exact findRelNext_wellformed u hne hgt

theorem fetchAllProducts_chain (server : List Char → PageResponse)
    (url : List Char) (ps : List (List Product)) (h : PageChain server url ps) :
    ∀ fuel, ps.length ≤ fuel → fetchAllProducts server fuel url = some ps.flatten := by
  induction h with
  | last hlast =>
    intro fuel hf
    cases fuel with
    | zero => simp at hf
    | succ f =>
      simp only [fetchAllProducts]
      rw [hlast]
      simp
  | step hstep hc ih =>
    intro fuel hf
    cases fuel with
    | zero => simp at hf
    | succ f =>
      simp only [fetchAllProducts]
      rw [hstep]
      simp [ih f (by simp at hf; omega)]

/-- Claim C4: `fetchAllProducts` repeatedly requests pages, follows the URL
in each page's `link` header with `rel="next"`, stops when no such link is
present, and returns the concatenation, in page order, of the `products`
arrays of every fetched page; on a well-formed header `<url>; rel="next"`
the link parser extracts exactly `url`. -/
theorem C4_pagination :
    (∀ (server : List Char → PageResponse) (url : List Char)
        (ps : List (List Product)) (fuel : Nat),
      PageChain server url ps → ps.length ≤ fuel →
      fetchAllProducts server fuel url = some ps.flatten) ∧
    (∀ u : List Char, u ≠ [] → '>' ∉ u →
      parseNextUrl (some (('<' :: u) ++ relNextLit)) = some u) :=
  ⟨fun server url ps fuel h hf => fetchAllProducts_chain server url ps h fuel hf,
   parseNextUrl_wellformed⟩

/-- Witness for C4's theorem on a concrete two-page run. -/
theorem C4_pagination_witness :
    fetchAllProducts cexServerPages 2 ("u0".toList)
      = some ([[cexPageProduct1], [cexPageProduct2]] : List (List Product)).flatten :=
  C4_pagination.1 cexServerPages ("u0".toList) [[cexPageProduct1], [cexPageProduct2]] 2
    (@PageChain.step cexServerPages ("u0".toList) ("u1".toList) [[cexPageProduct2]]
      (by decide)
      (@PageChain.last cexServerPages ("u1".toList) (by decide)))
    (by decide)

theorem genLoop_fresh (existing : List (List Char)) (pid base : Nat) :
    ∀ (fuel attempts : Nat), 100 ≤ attempts + fuel →
      (genLoop existing pid base attempts fuel).2 < 100 →
      (genLoop existing pid base attempts fuel).1 ∉ existing := by
  intro fuel
  induction fuel with
  | zero =>
    intro attempts hf h
    simp only [genLoop] at h
    omega
  | succ f ih =>
    intro attempts hf h
    by_cases hc : generateUniqueBarcode pid (base + attempts) ∈ existing ∧ attempts + 1 < 100
    · simp only [genLoop, if_pos hc] at h ⊢
      exact ih (attempts + 1) (by omega) h
    · simp only [genLoop, if_neg hc] at h ⊢
      intro hmem
      exact hc ⟨hmem, h⟩

theorem processVariantBatch_eq_pos (existing : List (List Char)) (pid base : Nat)
    (v : Variant) (hb : v.barcode ≠ []) :
    processVariantBatch existing pid base v = (existing, []) := by
  simp [processVariantBatch, hb]

theorem processVariantBatch_eq_skip (existing : List (List Char)) (pid base : Nat)
    (v : Variant) (hb : v.barcode = [])
    (hf : 100 ≤ (genLoop existing pid base 0 100).2) :
    processVariantBatch existing pid base v = (existing, []) := by
  simp [processVariantBatch, hb, hf]

theorem processVariantBatch_eq_gen (existing : List (List Char)) (pid base : Nat)
    (v : Variant) (hb : v.barcode = [])
    (hf : ¬ 100 ≤ (genLoop existing pid base 0 100).2) :
    processVariantBatch existing pid base v
      = ((genLoop existing pid base 0 100).1 :: existing,
         [(v.id, (genLoop existing pid base 0 100).1)]) := by
  simp [processVariantBatch, hb, hf]

theorem processVariantBatch_spec (existing : List (List Char)) (pid base : Nat)
    (v : Variant) :
    (∀ x ∈ existing, x ∈ (processVariantBatch existing pid base v).1) ∧
    (∀ b ∈ (processVariantBatch existing pid base v).2.map Prod.snd,
        b ∉ existing ∧ b ∈ (processVariantBatch existing pid base v).1) ∧
    ((processVariantBatch existing pid base v).2.map Prod.snd).Nodup ∧
    (∀ a ∈ (processVariantBatch existing pid base v).2,
        a.1 = v.id ∧ v.barcode = []) := by
  by_cases hb : v.barcode = []
  · by_cases hf : 100 ≤ (genLoop existing pid base 0 100).2
    · rw [processVariantBatch_eq_skip existing pid base v hb hf]
      exact ⟨fun x hx => hx, by simp, by simp, by simp⟩
    · rw [processVariantBatch_eq_gen existing pid base v hb hf]
      have hfresh := genLoop_fresh existing pid base 100 0 (by omega) (by omega)
      refine ⟨fun x hx => List.mem_cons_of_mem _ hx, ?_, by simp, ?_⟩
      · intro b hbm
        simp only [List.map_cons, List.map_nil, List.mem_singleton] at hbm
        subst hbm
        exact ⟨hfresh, List.mem_cons_self _ _⟩
      · intro a ha
        simp only [List.mem_singleton] at ha
        subst ha
        exact ⟨rfl, hb⟩
  · rw [processVariantBatch_eq_pos existing pid base v hb]
    exact ⟨fun x hx => hx, by simp, by simp, by simp⟩

theorem processVariantsBatch_spec (pid pIdx : Nat) :
    ∀ (vs : List Variant) (existing : List (List Char)) (vIdx : Nat),
      (∀ x ∈ existing, x ∈ (processVariantsBatch pid pIdx existing vIdx vs).1) ∧
      (∀ b ∈ (processVariantsBatch pid pIdx existing vIdx vs).2.map Prod.snd,
          b ∉ existing ∧ b ∈ (processVariantsBatch pid pIdx existing vIdx vs).1) ∧
      ((processVariantsBatch pid pIdx existing vIdx vs).2.map Prod.snd).Nodup ∧
      (∀ a ∈ (processVariantsBatch pid pIdx existing vIdx vs).2,
          ∃ v, v ∈ vs ∧ a.1 = v.id ∧ v.barcode = []) := by
  intro vs
  induction vs with
  | nil =>
    intro existing vIdx
    simp only [processVariantsBatch]
    exact ⟨fun x hx => hx, by simp, by simp, by simp⟩
  | cons v rest ih =>
    intro existing vIdx
    obtain ⟨h1, h2, h3, h4⟩ := processVariantBatch_spec existing pid (pIdx * 100 + vIdx) v
    obtain ⟨g1, g2, g3, g4⟩ :=
      ih (processVariantBatch existing pid (pIdx * 100 + vIdx) v).1 (vIdx + 1)
    simp only [processVariantsBatch]
    refine ⟨fun x hx => g1 _ (h1 x hx), ?_, ?_, ?_⟩
    · intro b hb
      rw [List.map_append] at hb
      rcases List.mem_append.mp hb with hb1 | hb2
      · obtain ⟨hbn, hbe⟩ := h2 b hb1
        exact ⟨hbn, g1 _ hbe⟩
      · obtain ⟨hbn, hbe⟩ := g2 b hb2
        exact ⟨fun hc => hbn (h1 _ hc), hbe⟩
    · rw [List.map_append, List.nodup_append]
      refine ⟨h3, g3, ?_⟩
      intro b hb1 hb2
      exact (g2 b hb2).1 ((h2 b hb1).2)
    · intro a ha
      rcases List.mem_append.mp ha with ha1 | ha2
      · obtain ⟨he, hbc⟩ := h4 a ha1
        exact ⟨v, List.mem_cons_self v rest, he, hbc⟩
      · obtain ⟨w, hw, hh⟩ := g4 a ha2
        exact ⟨w, List.mem_cons_of_mem v hw, hh⟩

theorem updateProductsLoop_cons_none (mf : Nat → Except (List Char) (List Metafield))
    (upd : Nat → Except (List Char) Unit) (existing : List (List Char))
    (pIdx : Nat) (p : Product) (rest : List Product) (htm : tagMatch p = none) :
    updateProductsLoop mf upd existing pIdx (p :: rest)
      = updateProductsLoop mf upd existing (pIdx + 1) rest := by
  simp [updateProductsLoop, htm]

theorem updateProductsLoop_cons_mf_error (mf : Nat → Except (List Char) (List Metafield))
    (upd : Nat → Except (List Char) Unit) (existing : List (List Char))
    (pIdx : Nat) (p : Product) (rest : List Product) (tm : List Char)
    (e : List Char) (htm : tagMatch p = some tm) (hmf : mf p.id = .error e) :
    updateProductsLoop mf upd existing pIdx (p :: rest)
      = ⟨[], [], existing, some e⟩ := by
  simp [updateProductsLoop, htm, hmf]

theorem updateProductsLoop_cons_ok (mf : Nat → Except (List Char) (List Metafield))
    (upd : Nat → Except (List Char) Unit) (existing : List (List Char))
    (pIdx : Nat) (p : Product) (rest : List Product) (tm : List Char)
    (m : List Metafield) (htm : tagMatch p = some tm) (hmf : mf p.id = .ok m) :
    (updateProductsLoop mf upd existing pIdx (p :: rest)).requests
      = ⟨p.id,
         batchDescription tm p.title (getMeta m ("dimensions".toList))
           (getMeta m ("includes".toList)) (getMeta m ("warranty".toList)),
         (processVariantsBatch p.id pIdx existing 0 p.variants).2⟩
        :: (updateProductsLoop mf upd
            (processVariantsBatch p.id pIdx existing 0 p.variants).1
            (pIdx + 1) rest).requests
    ∧ (updateProductsLoop mf upd existing pIdx (p :: rest)).existing
      = (updateProductsLoop mf upd
          (processVariantsBatch p.id pIdx existing 0 p.variants).1
          (pIdx + 1) rest).existing
    ∧ (updateProductsLoop mf upd existing pIdx (p :: rest)).generalError
      = (updateProductsLoop mf upd
          (processVariantsBatch p.id pIdx existing 0 p.variants).1
          (pIdx + 1) rest).generalError := by
  simp only [updateProductsLoop, htm, hmf]
  cases upd p.id <;> exact ⟨rfl, rfl, rfl⟩

theorem updateProductsLoop_spec (mf : Nat → Except (List Char) (List Metafield))
    (upd : Nat → Except (List Char) Unit) :
    ∀ (ps : List Product) (existing : List (List Char)) (pIdx : Nat),
      (∀ x ∈ existing, x ∈ (updateProductsLoop mf upd existing pIdx ps).existing) ∧
      (∀ b ∈ ((updateProductsLoop mf upd existing pIdx ps).requests.map
          (fun r => r.variants.map Prod.snd)).flatten,
        b ∉ existing ∧ b ∈ (updateProductsLoop mf upd existing pIdx ps).existing) ∧
      ((updateProductsLoop mf upd existing pIdx ps).requests.map
          (fun r => r.variants.map Prod.snd)).flatten.Nodup ∧
      (∀ req ∈ (updateProductsLoop mf upd existing pIdx ps).requests,
        ∃ p, p ∈ ps ∧ req.productId = p.id ∧
          ∀ a ∈ req.variants, ∃ v, v ∈ p.variants ∧ a.1 = v.id ∧ v.barcode = []) := by
  intro ps
  induction ps with
  | nil =>
    intro existing pIdx
    simp only [updateProductsLoop]
    exact ⟨fun x hx => hx, by simp, by simp, by simp⟩
  | cons p rest ih =>
    intro existing pIdx
    cases htm : tagMatch p with
    | none =>
      rw [updateProductsLoop_cons_none mf upd existing pIdx p rest htm]
      obtain ⟨i1, i2, i3, i4⟩ := ih existing (pIdx + 1)
      refine ⟨i1, i2, i3, ?_⟩
      intro req hreq
      obtain ⟨q, hq, h⟩ := i4 req hreq
      exact ⟨q, List.mem_cons_of_mem p hq, h⟩
    | some tm =>
      cases hmf : mf p.id with
      | error e =>
        rw [updateProductsLoop_cons_mf_error mf upd existing pIdx p rest tm e htm hmf]
        exact ⟨fun x hx => hx, by simp, by simp, by simp⟩
      | ok m =>
        obtain ⟨hq, he, _⟩ :=
          updateProductsLoop_cons_ok mf upd existing pIdx p rest tm m htm hmf
        obtain ⟨v1, v2, v3, v4⟩ := processVariantsBatch_spec p.id pIdx p.variants existing 0
        obtain ⟨i1, i2, i3, i4⟩ :=
          ih (processVariantsBatch p.id pIdx existing 0 p.variants).1 (pIdx + 1)
        rw [hq, he]
        refine ⟨fun x hx => i1 _ (v1 x hx), ?_, ?_, ?_⟩
        · intro b hb
          simp only [List.map_cons, List.flatten_cons] at hb
          rcases List.mem_append.mp hb with hb1 | hb2
          · obtain ⟨hbn, hbe⟩ := v2 b hb1
            exact ⟨hbn, i1 _ hbe⟩
          · obtain ⟨hbn, hbe⟩ := i2 b hb2
            exact ⟨fun hc => hbn (v1 _ hc), hbe⟩
        · simp only [List.map_cons, List.flatten_cons]
          rw [List.nodup_append]
          refine ⟨v3, i3, ?_⟩
          intro b hb1 hb2
          exact (i2 b hb2).1 ((v2 b hb1).2)
        · intro req hreq
          rcases List.mem_cons.mp hreq with hr1 | hr2
          · subst hr1
            refine ⟨p, List.mem_cons_self p rest, rfl, ?_⟩
            intro a ha
            exact v4 a ha
          · obtain ⟨q, hmem, h⟩ := i4 req hr2
            exact ⟨q, List.mem_cons_of_mem p hmem, h⟩

theorem updateProductsLoop_ids (mf : Nat → Except (List Char) (List Metafield))
    (upd : Nat → Except (List Char) Unit) :
    ∀ (ps : List Product) (existing : List (List Char)) (pIdx : Nat),
      (∀ p ∈ ps, tagMatch p ≠ none → ∃ m, mf p.id = .ok m) →
      (updateProductsLoop mf upd existing pIdx ps).generalError = none ∧
      (updateProductsLoop mf upd existing pIdx ps).requests.map UpdateRequest.productId
        = (ps.filter (fun p => (tagMatch p).isSome)).map Product.id := by
  intro ps
  induction ps with
  | nil => intro existing pIdx _; exact ⟨rfl, rfl⟩
  | cons p rest ih =>
    intro existing pIdx hmf
    have hrest : ∀ q ∈ rest, tagMatch q ≠ none → ∃ m, mf q.id = .ok m :=
      fun q hq => hmf q (List.mem_cons_of_mem p hq)
    cases htm : tagMatch p with
    | none =>
      rw [updateProductsLoop_cons_none mf upd existing pIdx p rest htm]
      obtain ⟨i1, i2⟩ := ih existing (pIdx + 1) hrest
      refine ⟨i1, ?_⟩
      rw [i2, List.filter_cons]
      simp [htm]
    | some tm =>
      obtain ⟨m, hm⟩ := hmf p (List.mem_cons_self p rest) (by simp [htm])
      obtain ⟨hq, he, hg⟩ := updateProductsLoop_cons_ok mf upd existing pIdx p rest tm m htm hm
      obtain ⟨i1, i2⟩ :=
        ih (processVariantsBatch p.id pIdx existing 0 p.variants).1 (pIdx + 1) hrest
      refine ⟨by rw [hg]; exact i1, ?_⟩
      rw [hq, List.map_cons, i2, List.filter_cons]
      simp [htm]

theorem updateProductsLoop_descs (mf : Nat → Except (List Char) (List Metafield))
    (upd : Nat → Except (List Char) Unit) :
    ∀ (ps : List Product) (existing : List (List Char)) (pIdx : Nat),
      (∀ p ∈ ps, tagMatch p ≠ none → ∃ m, mf p.id = .ok m) →
      (updateProductsLoop mf upd existing pIdx ps).requests.map
          (fun r => (r.productId, r.body_html))
        = ps.filterMap (fun p =>
            match tagMatch p, mf p.id with
            | some tm, .ok m => some (p.id, batchDescription tm p.title
                (getMeta m ("dimensions".toList)) (getMeta m ("includes".toList))
                (getMeta m ("warranty".toList)))
            | _, _ => none) := by
  intro ps
  induction ps with
  | nil => intro existing pIdx _; rfl
  | cons p rest ih =>
    intro existing pIdx hmf
    have hrest : ∀ q ∈ rest, tagMatch q ≠ none → ∃ m, mf q.id = .ok m :=
      fun q hq => hmf q (List.mem_cons_of_mem p hq)
    rw [List.filterMap_cons]
    cases htm : tagMatch p with
    | none =>
      rw [updateProductsLoop_cons_none mf upd existing pIdx p rest htm]
      simpa using ih existing (pIdx + 1) hrest
    | some tm =>
      obtain ⟨m, hm⟩ := hmf p (List.mem_cons_self p rest) (by simp [htm])
      obtain ⟨hq, he, hg⟩ := updateProductsLoop_cons_ok mf upd existing pIdx p rest tm m htm hm
      rw [hq, List.map_cons, hm]
      rw [ih (processVariantsBatch p.id pIdx existing 0 p.variants).1 (pIdx + 1) hrest]

theorem webhookAssignmentsAux_mem (pid : Nat) :
    ∀ (vs : List Variant) (i : Nat) (a : Nat × List Char),
      a ∈ webhookAssignmentsAux pid i vs →
      (∃ j, i ≤ j ∧ a.2 = generateUniqueBarcode pid j) ∧
      (∃ v, v ∈ vs ∧ a.1 = v.id ∧ v.barcode = []) := by
  intro vs
  induction vs with
  | nil => intro i a ha; simp [webhookAssignmentsAux] at ha
  | cons v rest ih =>
    intro i a ha
    simp only [webhookAssignmentsAux] at ha
    rcases List.mem_append.mp ha with h1 | h2
    · by_cases hb : v.barcode = []
      · rw [if_pos hb] at h1
        simp only [List.mem_singleton] at h1
        subst h1
        exact ⟨⟨i, Nat.le_refl i, rfl⟩, ⟨v, List.mem_cons_self v rest, rfl, hb⟩⟩
      · rw [if_neg hb] at h1
        simp at h1
    · obtain ⟨⟨j, hij, hj⟩, ⟨w, hw, hh⟩⟩ := ih (i + 1) a h2
      exact ⟨⟨j, by omega, hj⟩, ⟨w, List.mem_cons_of_mem v hw, hh⟩⟩

theorem webhookAssignmentsAux_nodup (pid : Nat) :
    ∀ (vs : List Variant) (i : Nat),
      ((webhookAssignmentsAux pid i vs).map Prod.snd).Nodup := by
  intro vs
  induction vs with
  | nil => intro i; simp [webhookAssignmentsAux]
  | cons v rest ih =>
    intro i
    simp only [webhookAssignmentsAux, List.map_append]
    rw [List.nodup_append]
    refine ⟨?_, ih (i + 1), ?_⟩
    · by_cases hb : v.barcode = [] <;> simp [hb]
    · intro b hb1 hb2
      by_cases hb : v.barcode = []
      · rw [if_pos hb] at hb1
        simp only [List.map_cons, List.map_nil, List.mem_singleton] at hb1
        subst hb1
        obtain ⟨a, ha, ha2⟩ := List.mem_map.mp hb2
        obtain ⟨⟨j, hij, hj⟩, _⟩ := webhookAssignmentsAux_mem pid rest (i + 1) a ha
        have hgg : generateUniqueBarcode pid i = generateUniqueBarcode pid j := by
          rw [← ha2, hj]
        have := generateUniqueBarcode_inj pid i j hgg
        omega
      · rw [if_neg hb] at hb1
        simp at hb1

theorem tagMatch_isSome_any (p : Product) :
    (tagMatch p).isSome
      = (normalizedTags p).any (fun t => targetTags.contains t) := by
  rw [Bool.eq_iff_iff]
  simp [tagMatch, List.find?_isSome, List.any_eq_true]

/-- Claim C3, amended: in the batch path every generated barcode is fresh —
the codes assigned in one run are pairwise distinct and none of them is in
`getExistingBarcodes` — while in the webhook path the generated codes are
pairwise distinct among themselves (indices are distinct) but are not
checked against barcodes already present on variants. -/
theorem C3_unique_barcodes :
    (∀ (mf : Nat → Except (List Char) (List Metafield))
       (upd : Nat → Except (List Char) Unit) (products : List Product),
      ((updateProducts mf upd products).requests.map
          (fun r => r.variants.map Prod.snd)).flatten.Nodup ∧
      (∀ b ∈ ((updateProducts mf upd products).requests.map
          (fun r => r.variants.map Prod.snd)).flatten,
        b ∉ getExistingBarcodes products)) ∧
    (∀ p : Product, ((webhookPayload p).variants.map Prod.snd).Nodup) := by
  constructor
  · intro mf upd products
    obtain ⟨h1, h2, h3, h4⟩ :=
      updateProductsLoop_spec mf upd products (getExistingBarcodes products) 0
    exact ⟨h3, fun b hb => (h2 b hb).1⟩
  · intro p
    exact webhookAssignmentsAux_nodup p.id p.variants 0

/-- Witness for C3's amended theorem: the code generated in a concrete batch
run is absent from the pre-existing barcode set. -/
theorem C3_unique_barcodes_witness :
    generateUniqueBarcode 7 0 ∉ getExistingBarcodes [cexProductA] :=
  (C3_unique_barcodes.1 mfOkAll updOkAll [cexProductA]).2
    (generateUniqueBarcode 7 0) (by decide)

/-- Counterexample to claim C3 as stated: the webhook path assigns variant 2
the code `generateUniqueBarcode 5 1`, which is exactly the barcode already
present on variant 1 of the same payload — generated codes are not checked
against existing ones. -/
theorem C3_counterexample :
    (webhookPayload cexWebhookProduct).variants
      = [(2, generateUniqueBarcode 5 1)] ∧
    cexWebhookProduct.variants.map Variant.barcode
      = [generateUniqueBarcode 5 1, []] := by
  exact ⟨by decide, by decide⟩

/-- Claim C5, amended: in both paths a variant that already has a barcode is
never assigned a generated one, and the webhook path writes a description
only when `body_html` is missing or blank; but the batch script always
overwrites `body_html` of every tag-matched product with the generated
description, whether or not one already exists. -/
theorem C5_skip_only_existing :
    (∀ (mf : Nat → Except (List Char) (List Metafield))
       (upd : Nat → Except (List Char) Unit) (products : List Product)
       (req : UpdateRequest), req ∈ (updateProducts mf upd products).requests →
       ∃ p, p ∈ products ∧ req.productId = p.id ∧
         ∀ a ∈ req.variants, ∃ v, v ∈ p.variants ∧ a.1 = v.id ∧ v.barcode = []) ∧
    (∀ (p : Product) (a : Nat × List Char), a ∈ (webhookPayload p).variants →
       ∃ v, v ∈ p.variants ∧ a.1 = v.id ∧ v.barcode = []) ∧
    (∀ p : Product, (webhookPayload p).body_html ≠ none ↔
       (p.body_html = [] ∨ jsTrim p.body_html = [])) ∧
    (∀ (mf : Nat → Except (List Char) (List Metafield))
       (upd : Nat → Except (List Char) Unit) (products : List Product),
       (∀ p ∈ products, tagMatch p ≠ none → ∃ m, mf p.id = .ok m) →
       (updateProducts mf upd products).requests.map
           (fun r => (r.productId, r.body_html))
         = products.filterMap (fun p =>
             match tagMatch p, mf p.id with
             | some tm, .ok m => some (p.id, batchDescription tm p.title
                 (getMeta m ("dimensions".toList)) (getMeta m ("includes".toList))
                 (getMeta m ("warranty".toList)))
             | _, _ => none)) := by
  refine ⟨?_, ?_, ?_, ?_⟩
  · intro mf upd products req hreq
    exact (updateProductsLoop_spec mf upd products (getExistingBarcodes products) 0).2.2.2
      req hreq
  · intro p a ha
    exact (webhookAssignmentsAux_mem p.id p.variants 0 a ha).2
  · intro p
    by_cases hb : p.body_html = [] ∨ jsTrim p.body_html = []
    · simp [webhookPayload, hb]
    · simp [webhookPayload, hb]
  · intro mf upd products hmf
    exact updateProductsLoop_descs mf upd products (getExistingBarcodes products) 0 hmf

/-- Witness for C5's amended theorem on a concrete run. -/
theorem C5_skip_only_existing_witness :
    (updateProducts mfOkAll updOkAll [cexProductA]).requests.map
        (fun r => (r.productId, r.body_html))
      = [cexProductA].filterMap (fun p =>
          match tagMatch p, mfOkAll p.id with
          | some tm, .ok m => some (p.id, batchDescription tm p.title
              (getMeta m ("dimensions".toList)) (getMeta m ("includes".toList))
              (getMeta m ("warranty".toList)))
          | _, _ => none) :=
  C5_skip_only_existing.2.2.2 mfOkAll updOkAll [cexProductA]
    (fun _ _ _ => ⟨[], rfl⟩)

/-- Counterexample to claim C5 as stated: a tag-matched product that already
has the non-empty description `"old"` is still sent a PUT whose `body_html`
is the freshly generated description, so the existing description does not
survive. -/
theorem C5_counterexample :
    cexDescribedProduct.body_html = ("old".toList) ∧
    ((updateProducts mfOkAll updOkAll [cexDescribedProduct]).requests.map
        UpdateRequest.body_html).head?.isSome = true ∧
    ((updateProducts mfOkAll updOkAll [cexDescribedProduct]).requests.map
        UpdateRequest.body_html).head? ≠ some ("old".toList) := by
  exact ⟨by decide, by decide, by decide⟩

/-- Claim C6, amended: a failed single-item update request is caught and the
loop continues — when every tag-matched product's metafields fetch succeeds
the batch finishes with no general error and attempts an update for every
tag-matched product, whatever the update results are; but an error in the
per-product metafields fetch is not caught per item: it aborts the whole
loop through the outer catch. -/
theorem C6_per_item_errors :
    (∀ (mf : Nat → Except (List Char) (List Metafield))
       (upd : Nat → Except (List Char) Unit) (products : List Product),
       (∀ p ∈ products, tagMatch p ≠ none → ∃ m, mf p.id = .ok m) →
       (updateProducts mf upd products).generalError = none ∧
       (updateProducts mf upd products).requests.map UpdateRequest.productId
         = (products.filter (fun p => (tagMatch p).isSome)).map Product.id) ∧
    (∀ (mf : Nat → Except (List Char) (List Metafield))
       (upd : Nat → Except (List Char) Unit) (existing : List (List Char))
       (pIdx : Nat) (p : Product) (rest : List Product) (tm e : List Char),
       tagMatch p = some tm → mf p.id = .error e →
       updateProductsLoop mf upd existing pIdx (p :: rest)
         = ⟨[], [], existing, some e⟩) := by
  constructor
  · intro mf upd products hmf
    exact updateProductsLoop_ids mf upd products (getExistingBarcodes products) 0 hmf
  · intro mf upd existing pIdx p rest tm e htm hmf
    exact updateProductsLoop_cons_mf_error mf upd existing pIdx p rest tm e htm hmf

/-- Witness for C6's amended theorem on a concrete run. -/
theorem C6_per_item_errors_witness :
    (updateProducts mfOkAll
      (fun _ => .error ("put failed".toList)) [cexProductA]).generalError = none :=
  (C6_per_item_errors.1 mfOkAll (fun _ => .error ("put failed".toList)) [cexProductA]
    (fun _ _ _ => ⟨[], rfl⟩)).1

/-- Counterexample to claim C6 as stated: a metafields-fetch error on the
first product is not caught per item — it aborts the batch, and the second
product, though tag-matched, never gets an update request. -/
theorem C6_counterexample :
    tagMatch cexProductB ≠ none ∧
    (updateProducts (fun _ => .error ("boom".toList)) updOkAll
      [cexProductA, cexProductB]).requests = [] ∧
    (updateProducts (fun _ => .error ("boom".toList)) updOkAll
      [cexProductA, cexProductB]).generalError = some ("boom".toList) := by
  exact ⟨by decide, by decide, by decide⟩

/-- Claim C7: with every per-item metafields fetch succeeding, the batch
sends an update request for a product exactly when splitting its tags on
commas, trimming and lowercasing leaves at least one entry of the fixed
allowlist; all other products are skipped. -/
theorem C7_tag_filter (mf : Nat → Except (List Char) (List Metafield))
    (upd : Nat → Except (List Char) Unit) (products : List Product)
    (hmf : ∀ p ∈ products, tagMatch p ≠ none → ∃ m, mf p.id = .ok m) :
    (updateProducts mf upd products).requests.map UpdateRequest.productId
      = (products.filter
          (fun p => (normalizedTags p).any (fun t => targetTags.contains t))).map
          Product.id := by
  have h := (updateProductsLoop_ids mf upd products (getExistingBarcodes products) 0 hmf).2
  simp only [updateProducts]
  rw [h]
  congr 1
  exact List.filter_congr (fun p _ => tagMatch_isSome_any p)

/-- Witness for C7's theorem on a concrete run: the matching product is
updated, the non-matching one is skipped. -/
theorem C7_tag_filter_witness :
    (updateProducts mfOkAll updOkAll [cexProductA, cexProductC]).requests.map
        UpdateRequest.productId
      = ([cexProductA, cexProductC].filter
          (fun p => (normalizedTags p).any (fun t => targetTags.contains t))).map
          Product.id :=
  C7_tag_filter mfOkAll updOkAll [cexProductA, cexProductC] (fun _ _ _ => ⟨[], rfl⟩)

theorem handleParsedBody_ne_401
    (parse : List Char → Except (List Char) (Option Product))
    (process : Product → Except (List Char) Unit) (body : List Char) :
    handleParsedBody parse process body ≠ 401 := by
  unfold handleParsedBody
  cases parse body with
  | error e => simp
  | ok o =>
    cases o with
    | none => simp
    | some p =>
      by_cases h : p.id = 0
      · simp [h]
      · simp only [if_neg h]
        cases process p <;> simp

/-- Claim C10: the handler verifies the HMAC only when both the configured
secret and the `x-shopify-hmac-sha256` header are truthy — 401 is returned
exactly when the method is POST, both are truthy and the computed digest
differs from the header; whenever the header or the secret is missing (or
the digest matches) a POST body is parsed and processed with no
authenticity check. -/
theorem C10_hmac_check_optional :
    (∀ (hmac : List Char → List Char → List Char)
       (parse : List Char → Except (List Char) (Option Product))
       (process : Product → Except (List Char) Unit)
       (env : WebhookEnv) (event : WebhookEvent),
       handler hmac parse process env event = 401 ↔
         (event.httpMethod = ("POST".toList) ∧
          truthyStr env.secret = true ∧ truthyStr event.hmacHeader = true ∧
          hmac (env.secret.getD []) event.body ≠ event.hmacHeader.getD [])) ∧
    (∀ (hmac : List Char → List Char → List Char)
       (parse : List Char → Except (List Char) (Option Product))
       (process : Product → Except (List Char) Unit)
       (env : WebhookEnv) (event : WebhookEvent),
       event.httpMethod = ("POST".toList) →
       (truthyStr env.secret = false ∨ truthyStr event.hmacHeader = false) →
       handler hmac parse process env event
         = handleParsedBody parse process event.body) ∧
    (∀ (hmac : List Char → List Char → List Char)
       (parse : List Char → Except (List Char) (Option Product))
       (process : Product → Except (List Char) Unit)
       (env : WebhookEnv) (event : WebhookEvent),
       event.httpMethod = ("POST".toList) →
       hmac (env.secret.getD []) event.body = event.hmacHeader.getD [] →
       handler hmac parse process env event
         = handleParsedBody parse process event.body) := by
  refine ⟨?_, ?_, ?_⟩
  · intro hmac parse process env event
    unfold handler
    by_cases hm : event.httpMethod = ("POST".toList)
    · rw [if_neg (by simp [hm])]
      by_cases hc : (truthyStr env.secret && truthyStr event.hmacHeader
          && !(hmac (env.secret.getD []) event.body == event.hmacHeader.getD [])) = true
      · rw [if_pos hc]
        simp only [Bool.and_eq_true, Bool.not_eq_true'] at hc
        obtain ⟨⟨hs, hh⟩, hb⟩ := hc
        constructor
        · intro _
          refine ⟨hm, hs, hh, ?_⟩
          intro heq
          rw [beq_eq_false_iff_ne] at hb
          exact hb heq
        · intro _
          rfl
      · rw [if_neg hc]
        constructor
        · intro h
          exact absurd h (handleParsedBody_ne_401 parse process event.body)
        · rintro ⟨_, h1, h2, h3⟩
          exfalso
          apply hc
          simp only [Bool.and_eq_true, Bool.not_eq_true']
          exact ⟨⟨h1, h2⟩, beq_eq_false_iff_ne.mpr h3⟩
    · rw [if_pos hm]
      constructor
      · intro h; exact absurd h (by decide)
      · rintro ⟨hpost, _⟩; exact absurd hpost hm
  · intro hmac parse process env event hpost hor
    unfold handler
    rw [if_neg (by simp [hpost])]
    rcases hor with h | h <;> rw [if_neg (by simp [h])]
  · intro hmac parse process env event hpost heq
    unfold handler
    rw [if_neg (by simp [hpost])]
    rw [if_neg (by simp [heq])]

/-- Witness for C10's theorem at a concrete input: no secret configured, no
header, POST — the body is processed without any check. -/
theorem C10_hmac_check_optional_witness :
    handler cexHmacFn cexParseFn cexProcessFn cexEnvNoSecret cexEventPost
      = handleParsedBody cexParseFn cexProcessFn cexEventPost.body :=
  C10_hmac_check_optional.2.1 cexHmacFn cexParseFn cexProcessFn cexEnvNoSecret
    cexEventPost rfl (Or.inl rfl)
